import Mathlib

/-!
Verification development for the remote filesystem-browsing server in
src/1lab/server.py.

The embedding models:
* Python's json.dumps with its default ensure_ascii=True escaping (used by
  the server to measure response sizes against the 2048-byte budget);
* the posix path string functions used by the server: os.path.join,
  os.path.dirname, os.path.relpath, together with path resolution against
  an abstract finite directory tree (the FS type) standing for the real
  filesystem (no symlinks, which the server never creates or follows);
* os.walk as a pre-order traversal of that tree;
* Server.get_files_info (the bounded directory lister with its trimming
  loop), Server.validate_new_root, and the cd / ls handling from
  Server.handle_client.

Strings kept from the source are the literal Russian message strings; the
specification glosses them in English ("OK", "Invalid directory path",
"Path does not exist", the truncation warnings).  Paths are modelled as
the very strings the server manipulates, since the server stores its
current root as a string and all checks are string computations plus
lookups in the real filesystem tree.
-/

/-- Python dict insertion d[k] = v: replace the first binding of the key in
place if present (Python dicts keep the original position), else append. -/
def pyInsert {α : Type} : List (String × α) → String → α → List (String × α)
  | [], k, v => [(k, v)]
  | (k', v') :: rest, k, v =>
    if k' = k then (k, v) :: rest else (k', v') :: pyInsert rest k v

/-- Lookup of a key in an insertion-ordered Python dict. -/
def pyLookup {α : Type} : List (String × α) → String → Option α
  | [], _ => none
  | (k', v') :: rest, k => if k' = k then some v' else pyLookup rest k

/-- Lowercase hexadecimal digit, as produced by json.dumps \uXXXX escapes. -/
def hexDigit (n : Nat) : Char :=
  if n < 10 then Char.ofNat (48 + n) else Char.ofNat (87 + n)

/-- Four lowercase hex digits of a code point below 0x10000. -/
def hex4 (n : Nat) : List Char :=
  [hexDigit (n / 4096 % 16), hexDigit (n / 256 % 16), hexDigit (n / 16 % 16), hexDigit (n % 16)]

/-- Escaping of one character by json.dumps with ensure_ascii=True: printable
ASCII (other than the quote and the backslash) passes through, everything
else is escaped.  Code points at or above 0x10000 never occur in the data
handled here, so the basic-multilingual-plane escape suffices. -/
def escChar (c : Char) : List Char :=
  if c = '"' then ['\\', '"']
  else if c = '\\' then ['\\', '\\']
  else if c = '\n' then ['\\', 'n']
  else if c = '\t' then ['\\', 't']
  else if c = '\r' then ['\\', 'r']
  else if c.toNat = 8 then ['\\', 'b']
  else if c.toNat = 12 then ['\\', 'f']
  else if 32 ≤ c.toNat ∧ c.toNat ≤ 126 then [c]
  else '\\' :: 'u' :: hex4 c.toNat

/-- json.dumps of a Python string (quotes plus escaped characters). -/
def pyStr (s : String) : String :=
  ⟨'"' :: (s.data.map escChar).flatten ++ ['"']⟩

/-- JSON values as produced by the server: strings, arrays and
insertion-ordered objects. -/
inductive PyJson where
  | str : String → PyJson
  | arr : List PyJson → PyJson
  | obj : List (String × PyJson) → PyJson

mutual

/-- json.dumps with the default separators (", " between items and ": "
after keys) and default ensure_ascii=True. -/
def pyDumps : PyJson → String
  | .str s => pyStr s
  | .arr xs => "[" ++ pyDumpsList xs ++ "]"
  | .obj kvs => "\x7b" ++ pyDumpsKVs kvs ++ "\x7d"

/-- Comma-separated dump of array elements. -/
def pyDumpsList : List PyJson → String
  | [] => ""
  | [x] => pyDumps x
  | x :: y :: rest => pyDumps x ++ ", " ++ pyDumpsList (y :: rest)

/-- Comma-separated dump of object entries. -/
def pyDumpsKVs : List (String × PyJson) → String
  | [] => ""
  | [(k, v)] => pyStr k ++ ": " ++ pyDumps v
  | (k, v) :: x :: rest => pyStr k ++ ": " ++ pyDumps v ++ ", " ++ pyDumpsKVs (x :: rest)

end

/-- Running total of the UTF-8 byte sizes of the characters.  The match on
the sum keeps the accumulator a numeral at every step, so that the
evaluator can run this loop iteratively on the long serialized strings
measured against the response budget. -/
def utf8LenAux : List Char → Nat → Nat
  | [], n => n
  | c :: cs, n =>
    match n + c.utf8Size with
    | 0 => utf8LenAux cs 0
    | m + 1 => utf8LenAux cs (m + 1)

/-- Byte size of the UTF-8 encoding, as in len(json.dumps(x).encode("utf-8")). -/
def utf8Len (s : String) : Nat := utf8LenAux s.data 0

/-- Whether a string starts with the given character (b.startswith in
posixpath.join). -/
def strStartsWith (s : String) (c : Char) : Bool := s.data.head? = some c

/-- Whether a string ends with the given character (path.endswith in
posixpath.join). -/
def strEndsWith (s : String) (c : Char) : Bool := s.data.getLast? = some c

/-- os.path.join for two components, posix semantics: an absolute second
component replaces the first; otherwise the separator is inserted unless the
first component is empty or already ends with a slash. -/
def osJoin (a b : String) : String :=
  if strStartsWith b '/' then b
  else if a = "" ∨ strEndsWith a '/' then ⟨a.data ++ b.data⟩
  else ⟨a.data ++ '/' :: b.data⟩

/-- Splitting a character list at every slash; like Python str.split("/"),
adjacent separators and a leading or trailing separator produce empty
segments. -/
def splitSegsAux : List Char → List Char → List (List Char)
  | [], acc => [acc.reverse]
  | c :: rest, acc =>
    if c = '/' then acc.reverse :: splitSegsAux rest [] else splitSegsAux rest (c :: acc)

/-- All slash-separated segments of a character list. -/
def splitSegs (l : List Char) : List (List Char) := splitSegsAux l []

/-- One step of posix path normalisation over a stack of kept segments:
empty segments and "." are dropped, ".." pops the last kept segment (staying
put at the root, as normpath does for absolute paths), anything else is
kept. -/
def normStep (stack : List String) (seg : String) : List String :=
  if seg = "" ∨ seg = "." then stack
  else if seg = ".." then stack.dropLast
  else stack ++ [seg]

/-- The normalised segment list of a path string, i.e. the non-empty
components of os.path.normpath for an absolute path.  The server only ever
resolves paths built from its absolute current root, so treating every path
as anchored at the filesystem root is faithful. -/
def normSegs (p : String) : List String :=
  ((splitSegs p.data).map (fun l => (⟨l⟩ : String))).foldl normStep []

/-- Everything up to and including the last slash (head = p[:p.rfind('/')+1]
in posixpath.dirname). -/
def dropLastSeg (l : List Char) : List Char :=
  (l.reverse.dropWhile (fun c => c ≠ '/')).reverse

/-- Removal of trailing slashes (str.rstrip('/')). -/
def rstripSlash (l : List Char) : List Char :=
  (l.reverse.dropWhile (fun c => c = '/')).reverse

/-- os.path.dirname, posix semantics: the part before the last slash, with
trailing slashes stripped unless the result consists only of slashes. -/
def osDirname (s : String) : String :=
  let head := dropLastSeg s.data
  if head ≠ [] ∧ head.any (fun c => c ≠ '/') then ⟨rstripSlash head⟩ else ⟨head⟩

/-- Length of the longest common prefix of two segment lists
(os.path.commonprefix on the split paths). -/
def commonLen : List String → List String → Nat
  | a :: as, b :: bs => if a = b then commonLen as bs + 1 else 0
  | _, _ => 0

/-- Joining of relative segments with slashes (os.path.join over the
components computed by relpath; none of them is absolute or empty). -/
def joinSegs : List String → String
  | [] => ""
  | [s] => s
  | s :: t :: rest => s ++ "/" ++ joinSegs (t :: rest)

/-- os.path.relpath(path, start) for absolute arguments: both paths are
normalised and split, the common prefix is removed, and one ".." per
remaining start segment is prepended; an empty result is ".". -/
def relPath (path start : String) : String :=
  let pl := normSegs path
  let sl := normSegs start
  let i := commonLen sl pl
  let rel := List.replicate (sl.length - i) ".." ++ pl.drop i
  if rel = [] then "." else joinSegs rel

/-- A finite directory tree: named subdirectories (in enumeration order) and
file names.  This stands for the real filesystem during one request; the
enumeration order is whatever the underlying directory read yields. -/
inductive FS where
  | node : List (String × FS) → List String → FS

/-- The named subdirectories of a tree node. -/
def FS.childrenOf : FS → List (String × FS)
  | .node ds _ => ds

/-- The file names of a tree node. -/
def FS.filesOf : FS → List String
  | .node _ fls => fls

/-- First subdirectory with the given name. -/
def lookupChild : List (String × FS) → String → Option FS
  | [], _ => none
  | (n, t) :: rest, s => if n = s then some t else lookupChild rest s

/-- Walking down the tree along already-normalised segments. -/
def descend : FS → List String → Option FS
  | t, [] => some t
  | t, s :: rest =>
    match lookupChild t.childrenOf s with
    | some t' => descend t' rest
    | none => none

/-- os.path.isdir: the path resolves to a directory node. -/
def isDir (fsys : FS) (p : String) : Bool := (descend fsys (normSegs p)).isSome

/-- The path resolves to a file: its parent resolves and lists the final
segment among its files. -/
def isFile (fsys : FS) (p : String) : Bool :=
  match (normSegs p).getLast? with
  | none => false
  | some last =>
    match descend fsys (normSegs p).dropLast with
    | some t => t.filesOf.contains last
    | none => false

/-- os.path.exists over the model: the path names a directory or a file. -/
def pathExists (fsys : FS) (p : String) : Bool := isDir fsys p || isFile fsys p

mutual

/-- os.walk from a directory node reached at the given path string: the
node itself first (top-down), then each subtree, joining names onto the
path exactly as os.walk does. -/
def walkFrom : FS → String → List (String × List String × List String)
  | .node ds fls, p => (p, ds.map Prod.fst, fls) :: walkChildren ds p

/-- os.walk over the listed subdirectories, in enumeration order. -/
def walkChildren : List (String × FS) → String → List (String × List String × List String)
  | [], _ => []
  | (n, t) :: rest, p => walkFrom t (osJoin p n) ++ walkChildren rest p

end

/-- os.walk(target): the pre-order triples if target resolves to a
directory, nothing otherwise (os.walk silently yields nothing for a missing
or non-directory argument). -/
def pyWalk (fsys : FS) (p : String) : List (String × List String × List String) :=
  match descend fsys (normSegs p) with
  | some t => walkFrom t p
  | none => []

/-- MAX_ITEMS from get_files_info: the soft cap on items per directory
level; half of it bounds each of the two name lists. -/
def MAX_ITEMS : Nat := 100

/-- MAX_RESPONSE_SIZE from get_files_info: the serialized-size budget in
bytes. -/
def MAX_RESPONSE_SIZE : Nat := 2048

/-- The per-level truncation warning, literally as formatted by the source
(the specification glosses it as "Shown d directories and f files out of
D directories and F files"). -/
def levelWarning (d f D F : Nat) : String :=
  "Показано " ++ toString d ++ " директорий и " ++ toString f ++
    " файлов из " ++ toString D ++ " директорий и " ++ toString F ++ " файлов"

/-- The top-level truncation warning (glossed "Only part of the directory
structure is shown due to response size limitation"). -/
def topWarningMsg : String :=
  "Показана только часть структуры каталогов из-за ограничения размера ответа"

/-- The missing-path error message (glossed "Path does not exist"). -/
def errNoPath : String := "Путь не существует"

/-- One entry of the accumulated listing: the shown subdirectory names, the
shown file names, and the optional truncation warning, in that key order. -/
structure LevelEntry where
  dirs : List String
  files : List String
  warning : Option String
  deriving DecidableEq

/-- The JSON object for one level entry, with keys in insertion order. -/
def entryKV (ds fs : List String) (w : Option String) : PyJson :=
  .obj ([("dirs", .arr (ds.map .str)), ("files", .arr (fs.map .str))] ++
    (match w with | some s => [("warning", .str s)] | none => []))

/-- The accumulated files_info dict as JSON key/value pairs. -/
def infoKVs (info : List (String × LevelEntry)) : List (String × PyJson) :=
  info.map (fun ke => (ke.1, entryKV ke.2.dirs ke.2.files ke.2.warning))

/-- The trial dict built inside the loop of get_files_info: the listing so
far, the candidate level without its warning, and the current_path field
(dict-literal update semantics, hence pyInsert). -/
def testResponse (info : List (String × LevelEntry)) (relroot cur : String)
    (ds fs : List String) : PyJson :=
  .obj (pyInsert (pyInsert (infoKVs info) relroot (entryKV ds fs none)) "current_path" (.str cur))

/-- The while loop of get_files_info, exactly as written: while the trial
serialization exceeds the budget, stop with adding_allow = false once both
lists are empty, otherwise drop the trailing element of each non-empty list
and retry.  Returns adding_allow and the two trimmed lists.  Total by
well-founded recursion on the combined length of the lists. -/
def trimLoopW (info : List (String × LevelEntry)) (relroot cur : String)
    (ds fs : List String) : Bool × List String × List String :=
  if utf8Len (pyDumps (testResponse info relroot cur ds fs)) ≤ MAX_RESPONSE_SIZE then
    (true, ds, fs)
  else if _h : ds.length = 0 ∧ fs.length = 0 then
    (false, ds, fs)
  else
    trimLoopW info relroot cur ds.dropLast fs.dropLast
termination_by ds.length + fs.length
decreasing_by
  rw [List.length_dropLast, List.length_dropLast]
  omega

/-- Iteration-counting version of the same loop: none when the iteration
budget runs out.  trimLoopF_some below shows a budget of one more than the
combined list length always suffices and reproduces trimLoopW, so this is
the same loop in a form the kernel can evaluate. -/
def trimLoopF : Nat → List (String × LevelEntry) → String → String →
    List String → List String → Option (Bool × List String × List String)
  | 0, _, _, _, _, _ => none
  | fuel + 1, info, relroot, cur, ds, fs =>
    if utf8Len (pyDumps (testResponse info relroot cur ds fs)) ≤ MAX_RESPONSE_SIZE then
      some (true, ds, fs)
    else if ds.length = 0 ∧ fs.length = 0 then
      some (false, ds, fs)
    else
      trimLoopF fuel info relroot cur ds.dropLast fs.dropLast

/-- The trimming loop as used by the rest of the model: the
iteration-counting form with its sufficient budget (equal to trimLoopW by
trimLoopW_eq_trimLoop below). -/
def trimLoop (info : List (String × LevelEntry)) (relroot cur : String)
    (ds fs : List String) : Bool × List String × List String :=
  (trimLoopF (ds.length + fs.length + 1) info relroot cur ds fs).getD (true, ds, fs)

/-- The body of the os.walk loop in get_files_info for one visited
directory: compute the relative key, tentatively keep up to 50 names of
each kind, run the trimming loop, add the level (with its truncation
warning when fewer items are shown than exist) when allowed, and report
whether the loop must break (size exceeded or level dropped). -/
def processLevel (rootDir : String) (info : List (String × LevelEntry))
    (t : String × List String × List String) : List (String × LevelEntry) × Bool :=
  let relroot := relPath t.1 rootDir
  let totalItems := t.2.1.length + t.2.2.length
  let ds0 := t.2.1.take (MAX_ITEMS / 2)
  let fs0 := t.2.2.take (MAX_ITEMS / 2)
  let r := trimLoop info relroot rootDir ds0 fs0
  let info' :=
    if r.1 then
      pyInsert info relroot
        ⟨r.2.1, r.2.2,
          if totalItems > r.2.1.length + r.2.2.length then
            some (levelWarning r.2.1.length r.2.2.length t.2.1.length t.2.2.length)
          else none⟩
    else info
  (info', decide (utf8Len (pyDumps (.obj (infoKVs info'))) > MAX_RESPONSE_SIZE) || !r.1)

/-- The os.walk loop of get_files_info over the list of visited
directories, with the early break; the Bool records whether the top-level
truncation warning was attached. -/
def runWalk (rootDir : String) (info : List (String × LevelEntry)) :
    List (String × List String × List String) → List (String × LevelEntry) × Bool
  | [] => (info, false)
  | t :: ts =>
    let r := processLevel rootDir info t
    if r.2 then (r.1, true) else runWalk rootDir r.1 ts

/-- Result of get_files_info: either the error dict, or the per-directory
listing together with the top-level-warning flag. -/
inductive LsResult where
  | error : String → LsResult
  | ok : List (String × LevelEntry) → Bool → LsResult
  deriving DecidableEq

/-- Server.get_files_info: join the argument onto the current root, reject
a missing path, otherwise walk and accumulate under the size budget. -/
def get_files_info (fsys : FS) (rootDir path : String) : LsResult :=
  let target := osJoin rootDir path
  if pathExists fsys target then
    let r := runWalk rootDir [] (pyWalk fsys target)
    .ok r.1 r.2
  else .error errNoPath

/-- The argument actually passed to get_files_info by handle_client:
directory_path or self.root_dir, i.e. the current root when the client
sent no argument (the empty string is falsy in Python). -/
def lsArg (arg rootDir : String) : String := if arg = "" then rootDir else arg

/-- The dict returned by get_files_info, as JSON key/value pairs (the
top-level warning is inserted with dict-assignment semantics). -/
def lsResultKVs : LsResult → List (String × PyJson)
  | .error m => [("error", .str m)]
  | .ok info tw =>
    if tw then pyInsert (infoKVs info) "warning" (.str topWarningMsg) else infoKVs info

/-- The ls response assembled by handle_client: the get_files_info dict
with current_path set to the server's current root. -/
def lsResponseKVs (fsys : FS) (rootDir arg : String) : List (String × PyJson) :=
  pyInsert (lsResultKVs (get_files_info fsys rootDir (lsArg arg rootDir)))
    "current_path" (.str rootDir)

/-- The serialized ls response object. -/
def lsResponse (fsys : FS) (rootDir arg : String) : PyJson :=
  .obj (lsResponseKVs fsys rootDir arg)

/-- Server.validate_new_root: the join of the current root and the target
exists and is a directory. -/
def validate_new_root (fsys : FS) (rootDir newRoot : String) : Bool :=
  pathExists fsys (osJoin rootDir newRoot) && isDir fsys (osJoin rootDir newRoot)

/-- Outcome of a cd command, naming the three response strings of the
source. -/
inductive CdResult where
  | ok
  | cannotGoAbove
  | invalidPath
  deriving DecidableEq

/-- The literal response strings of the source for each cd outcome (the
specification glosses them "OK", "Cannot go above the root directory" and
"Invalid directory path"). -/
def cdMessage : CdResult → String
  | .ok => "ОК"
  | .cannotGoAbove => "Невозможно перейти выше корневой директории"
  | .invalidPath => "Неверный путь к директории"

/-- The cd branch of Server.handle_client: for "..", move to
os.path.dirname of the current root when that parent exists and is a
directory, else refuse; for any other target, validate the joined path and
either update the root or refuse.  Returns the outcome and the root after
the command. -/
def cdStep (fsys : FS) (rootDir newRoot : String) : CdResult × String :=
  if newRoot = ".." then
    let parentDir := osDirname rootDir
    if pathExists fsys parentDir && isDir fsys parentDir then (.ok, parentDir)
    else (.cannotGoAbove, rootDir)
  else if validate_new_root fsys rootDir newRoot then (.ok, osJoin rootDir newRoot)
  else (.invalidPath, rootDir)

/-- The try/except wrapper around the body of get_files_info: a raised
exception (modelled abstractly by an optional message, since the walk over
the in-memory tree cannot itself fail) is caught and converted to the
error dict, mirroring the final except clause of the source. -/
def get_files_info_exc (exc : Option String) (fsys : FS) (rootDir path : String) : LsResult :=
  match exc with
  | some e => .error e
  | none => get_files_info fsys rootDir path

/-- A 230-character directory name (within the usual 255-byte limit of real
filesystems), used to build a deep current root. -/
def c1seg : String := ⟨List.replicate 230 'x'⟩

/-- A chain of directories of the given depth, each level holding one
subdirectory named c1seg. -/
def c1chain : Nat → FS
  | 0 => .node [] []
  | n + 1 => .node [(c1seg, c1chain n)] []

/-- A filesystem with a directory nested nine levels deep. -/
def c1fs : FS := c1chain 9

/-- The 2079-byte absolute path of the innermost directory of c1fs (nine
segments of 230 characters), a realistic current root reachable by
repeated cd commands. -/
def c1root : String := ⟨(List.replicate 9 ('/' :: List.replicate 230 'x')).flatten⟩


theorem trimLoopF_some (fuel : Nat) :
    ∀ (ds fs : List String) (info : List (String × LevelEntry)) (relroot cur : String),
      ds.length + fs.length < fuel →
      trimLoopF fuel info relroot cur ds fs = some (trimLoopW info relroot cur ds fs) := by
  induction fuel with
  | zero => intro ds fs info rr cur h; omega
  | succ n ih =>
    intro ds fs info rr cur h
    rw [trimLoopW.eq_def]
    simp only [trimLoopF]
    split_ifs with h1 h2
    · rfl
    · rfl
    · apply ih
      rw [List.length_dropLast, List.length_dropLast]
      omega

theorem trimLoop_eq_trimLoopW (info : List (String × LevelEntry)) (relroot cur : String)
    (ds fs : List String) :
    trimLoop info relroot cur ds fs = trimLoopW info relroot cur ds fs := by
  unfold trimLoop
  rw [trimLoopF_some (ds.length + fs.length + 1) ds fs info relroot cur (by omega)]
  rfl

theorem trimLoopF_bound (fuel : Nat) :
    ∀ (ds fs ds' fs' : List String) (info : List (String × LevelEntry)) (relroot cur : String),
      trimLoopF fuel info relroot cur ds fs = some (true, ds', fs') →
      utf8Len (pyDumps (testResponse info relroot cur ds' fs')) ≤ MAX_RESPONSE_SIZE := by
  induction fuel with
  | zero => intro ds fs ds' fs' info rr cur h; simp [trimLoopF] at h
  | succ n ih =>
    intro ds fs ds' fs' info rr cur h
    simp only [trimLoopF] at h
    split_ifs at h with h1 h2
    · simp only [Option.some.injEq, Prod.mk.injEq, true_and] at h
      obtain ⟨h3, h4⟩ := h
      rw [← h3, ← h4]
      exact h1
    · simp at h
    · exact ih _ _ _ _ _ _ _ h

theorem trimLoopF_take (fuel : Nat) :
    ∀ (ds fs ds' fs' : List String) (b : Bool) (info : List (String × LevelEntry))
      (relroot cur : String),
      trimLoopF fuel info relroot cur ds fs = some (b, ds', fs') →
      ∃ n m, ds' = ds.take n ∧ fs' = fs.take m := by
  induction fuel with
  | zero => intro ds fs ds' fs' b info rr cur h; simp [trimLoopF] at h
  | succ n ih =>
    intro ds fs ds' fs' b info rr cur h
    simp only [trimLoopF] at h
    split_ifs at h with h1 h2
    · simp only [Option.some.injEq, Prod.mk.injEq] at h
      exact ⟨ds.length, fs.length, by simp [h.2.1.symm], by simp [h.2.2.symm]⟩
    · simp only [Option.some.injEq, Prod.mk.injEq] at h
      exact ⟨ds.length, fs.length, by simp [h.2.1.symm], by simp [h.2.2.symm]⟩
    · obtain ⟨a, c, ha, hc⟩ := ih _ _ _ _ _ _ _ _ h
      refine ⟨min a (ds.length - 1), min c (fs.length - 1), ?_, ?_⟩
      · rw [ha, List.dropLast_eq_take, List.take_take]
      · rw [hc, List.dropLast_eq_take, List.take_take]

theorem trimLoop_bound (info : List (String × LevelEntry)) (relroot cur : String)
    (ds fs ds' fs' : List String)
    (h : trimLoop info relroot cur ds fs = (true, ds', fs')) :
    utf8Len (pyDumps (testResponse info relroot cur ds' fs')) ≤ MAX_RESPONSE_SIZE := by
  have hs := trimLoopF_some (ds.length + fs.length + 1) ds fs info relroot cur (by omega)
  unfold trimLoop at h
  rw [hs] at h
  simp only [Option.getD_some] at h
  apply trimLoopF_bound (ds.length + fs.length + 1) ds fs ds' fs' info relroot cur
  rw [hs, h]

theorem trimLoop_take (info : List (String × LevelEntry)) (relroot cur : String)
    (ds fs : List String) :
    ∃ n m, (trimLoop info relroot cur ds fs).2.1 = ds.take n ∧
      (trimLoop info relroot cur ds fs).2.2 = fs.take m := by
  have hs := trimLoopF_some (ds.length + fs.length + 1) ds fs info relroot cur (by omega)
  unfold trimLoop
  rw [hs]
  simp only [Option.getD_some]
  exact trimLoopF_take (ds.length + fs.length + 1) ds fs _ _ _ info relroot cur
    (by rw [hs])

theorem pyLookup_pyInsert {α : Type} (l : List (String × α)) (k : String) (v : α) :
    pyLookup (pyInsert l k v) k = some v := by
  induction l with
  | nil => simp [pyInsert, pyLookup]
  | cons x rest ih =>
    by_cases hx : x.1 = k
    · simp [pyInsert, hx, pyLookup]
    · simp [pyInsert, hx, pyLookup, ih]

theorem mem_pyInsert {α : Type} (l : List (String × α)) (k : String) (v : α) (x : String × α)
    (h : x ∈ pyInsert l k v) : x = (k, v) ∨ x ∈ l := by
  induction l with
  | nil => simp [pyInsert] at h; simp [h]
  | cons y rest ih =>
    by_cases hy : y.1 = k
    · simp [pyInsert, hy] at h
      rcases h with h | h
      · left; simp [h]
      · right; simp [h]
    · simp [pyInsert, hy] at h
      rcases h with h | h
      · right; simp [h]
      · rcases ih h with h' | h'
        · left; exact h'
        · right; simp [h']

theorem splitSegsAux_no_slash (x : List Char) :
    ∀ acc, '/' ∉ x → splitSegsAux x acc = [acc.reverse ++ x] := by
  induction x with
  | nil => intro acc h; simp [splitSegsAux]
  | cons c cs ih =>
    intro acc h
    have hc : c ≠ '/' := fun hc => h (hc ▸ List.mem_cons_self c cs)
    simp only [splitSegsAux, if_neg hc]
    rw [ih (c :: acc) (fun hm => h (List.mem_cons_of_mem c hm))]
    simp

theorem splitSegsAux_append_slash (a : List Char) :
    ∀ acc (x : List Char), '/' ∉ x →
      splitSegsAux (a ++ '/' :: x) acc = splitSegsAux a acc ++ [x] := by
  induction a with
  | nil =>
    intro acc x h
    simp only [List.nil_append, splitSegsAux, if_pos rfl]
    rw [splitSegsAux_no_slash x [] h]
    simp
  | cons c cs ih =>
    intro acc x h
    simp only [List.cons_append, splitSegsAux, List.append_eq]
    by_cases hc : c = '/'
    · rw [if_pos hc, if_pos hc, ih [] x h]
      simp
    · rw [if_neg hc, if_neg hc, ih (c :: acc) x h]

theorem splitSegs_append_slash (a x : List Char) (h : '/' ∉ x) :
    splitSegs (a ++ '/' :: x) = splitSegs a ++ [x] :=
  splitSegsAux_append_slash a [] x h

theorem splitSegs_no_slash (x : List Char) (h : '/' ∉ x) : splitSegs x = [x] := by
  rw [splitSegs, splitSegsAux_no_slash x [] h]
  simp

theorem normSegs_mk_append_seg (l : List Char) (X : String) (h1 : '/' ∉ X.data)
    (h2 : X ≠ "") (h3 : X ≠ ".") (h4 : X ≠ "..") :
    normSegs ⟨l ++ '/' :: X.data⟩ = normSegs ⟨l⟩ ++ [X] := by
  show ((splitSegs (l ++ '/' :: X.data)).map (fun s => (⟨s⟩ : String))).foldl normStep [] = _
  rw [splitSegs_append_slash l X.data h1, List.map_append, List.foldl_append]
  simp only [List.map_cons, List.map_nil, List.foldl_cons, List.foldl_nil]
  show normStep (normSegs ⟨l⟩) ⟨X.data⟩ = _
  rw [show (⟨X.data⟩ : String) = X from rfl]
  rw [normStep, if_neg (by simp [h2, h3]), if_neg h4]

theorem dropWhile_all_append {α : Type} (p : α → Bool) (x l : List α)
    (hx : ∀ c ∈ x, p c = true) :
    List.dropWhile p (x ++ l) = List.dropWhile p l := by
  induction x with
  | nil => simp
  | cons c cs ih =>
    simp only [List.cons_append, List.dropWhile_cons]
    rw [hx c (List.mem_cons_self c cs)]
    simp only [if_true]
    exact ih (fun d hd => hx d (List.mem_cons_of_mem c hd))

theorem dropLastSeg_append_slash (a x : List Char) (hx : '/' ∉ x) :
    dropLastSeg (a ++ '/' :: x) = a ++ ['/'] := by
  unfold dropLastSeg
  rw [List.reverse_append, List.reverse_cons]
  rw [List.append_assoc, dropWhile_all_append _ x.reverse _
    (fun c hc => by
      simp only [decide_eq_true_eq]
      intro h
      exact hx (h ▸ List.mem_reverse.mp hc))]
  simp [List.dropWhile_cons]

theorem dropLastSeg_no_slash (x : List Char) (hx : '/' ∉ x) : dropLastSeg x = [] := by
  unfold dropLastSeg
  rw [show x.reverse = x.reverse ++ [] from (List.append_nil _).symm, dropWhile_all_append _ _ _
    (fun c hc => by
      simp only [decide_eq_true_eq]
      intro h
      exact hx (h ▸ List.mem_reverse.mp hc))]
  simp

theorem rstripSlash_append_slash (a : List Char) (ha : a.getLast? ≠ some '/') :
    rstripSlash (a ++ ['/']) = a := by
  unfold rstripSlash
  rw [List.reverse_append]
  simp only [List.reverse_cons, List.reverse_nil, List.nil_append, List.singleton_append]
  rw [show List.dropWhile (fun c => decide (c = '/')) ('/' :: a.reverse) =
      List.dropWhile (fun c => decide (c = '/')) a.reverse by
    rw [List.dropWhile_cons]
    simp]
  cases hr : a.reverse with
  | nil =>
    simp only [List.reverse_eq_nil_iff] at hr
    simp [hr]
  | cons h t =>
    have hh : a.getLast? = some h := by
      rw [← List.head?_reverse, hr]
      rfl
    have hne : h ≠ '/' := fun he => ha (he ▸ hh)
    rw [List.dropWhile_cons, if_neg (by simp [hne])]
    rw [← hr, List.reverse_reverse]

theorem endsWith_slash_decomp (R : String) (h : strEndsWith R '/' = true) :
    R.data.dropLast ++ ['/'] = R.data := by
  unfold strEndsWith at h
  simp only [decide_eq_true_eq] at h
  exact List.dropLast_append_getLast? '/' (Option.mem_def.mpr h)

theorem not_startsWith_of_no_slash (X : String) (h1 : '/' ∉ X.data) :
    strStartsWith X '/' = false := by
  unfold strStartsWith
  cases hx : X.data with
  | nil => simp
  | cons c cs =>
    have hc : c ≠ '/' := fun he => h1 (by rw [hx, he]; exact List.mem_cons_self _ _)
    simp [hc]

theorem normSegs_mk_append_empty (l : List Char) :
    normSegs ⟨l ++ ['/']⟩ = normSegs ⟨l⟩ := by
  show ((splitSegs (l ++ '/' :: [])).map (fun s => (⟨s⟩ : String))).foldl normStep [] = _
  rw [splitSegs_append_slash l [] (by simp)]
  simp only [List.map_append, List.map_cons, List.map_nil, List.foldl_append, List.foldl_cons,
    List.foldl_nil]
  show normStep (normSegs ⟨l⟩) ⟨[]⟩ = _
  rw [normStep, if_pos (Or.inl rfl)]

theorem normSegs_osJoin (R X : String) (h1 : '/' ∉ X.data) (h2 : X ≠ "")
    (h3 : X ≠ ".") (h4 : X ≠ "..") :
    normSegs (osJoin R X) = normSegs R ++ [X] := by
  unfold osJoin
  rw [not_startsWith_of_no_slash X h1]
  simp only [Bool.false_eq_true, if_false]
  by_cases hR : R = "" ∨ strEndsWith R '/' = true
  · rw [if_pos hR]
    rcases hR with hR | hR
    · subst hR
      show normSegs ⟨X.data⟩ = normSegs "" ++ [X]
      rw [show normSegs "" = [] from by decide]
      show ((splitSegs X.data).map (fun s => (⟨s⟩ : String))).foldl normStep [] = [] ++ [X]
      rw [splitSegs_no_slash X.data h1]
      simp only [List.map_cons, List.map_nil, List.foldl_cons, List.foldl_nil, List.nil_append]
      show normStep [] X = [X]
      rw [normStep, if_neg (by simp [h2, h3]), if_neg h4]
      simp
    · have hd := endsWith_slash_decomp R hR
      rw [show R.data ++ X.data = R.data.dropLast ++ '/' :: X.data from by
        conv_lhs => rw [← hd]
        rw [List.append_assoc, List.singleton_append]]
      rw [normSegs_mk_append_seg R.data.dropLast X h1 h2 h3 h4]
      rw [show normSegs R = normSegs ⟨R.data.dropLast⟩ from by
        conv_lhs => rw [show R = ⟨R.data⟩ from rfl, ← hd]
        exact normSegs_mk_append_empty R.data.dropLast]
  · rw [if_neg hR]
    exact normSegs_mk_append_seg R.data X h1 h2 h3 h4

theorem osDirname_osJoin (R X : String) (h1 : '/' ∉ X.data)
    (hR : R = "/" ∨ strEndsWith R '/' = false) :
    osDirname (osJoin R X) = R := by
  unfold osJoin
  rw [not_startsWith_of_no_slash X h1]
  simp only [Bool.false_eq_true, if_false]
  rcases hR with hR | hR
  · subst hR
    rw [if_pos (Or.inr (by decide))]
    show osDirname ⟨'/' :: X.data⟩ = "/"
    unfold osDirname
    rw [show ('/' :: X.data) = [] ++ '/' :: X.data from rfl,
      dropLastSeg_append_slash [] X.data h1]
    simp
  · by_cases hRe : R = ""
    · subst hRe
      rw [if_pos (Or.inl rfl)]
      show osDirname ⟨X.data⟩ = ""
      unfold osDirname
      rw [show (⟨X.data⟩ : String).data = X.data from rfl, dropLastSeg_no_slash X.data h1]
      simp
    · rw [if_neg (by simp [hRe, hR])]
      unfold osDirname
      rw [show (⟨R.data ++ '/' :: X.data⟩ : String).data = R.data ++ '/' :: X.data from rfl,
        dropLastSeg_append_slash R.data X.data h1]
      have hne : R.data ≠ [] := fun h0 => hRe (by
        rw [show R = (⟨R.data⟩ : String) from rfl, h0])
      have hlast : R.data.getLast? ≠ some '/' := by
        unfold strEndsWith at hR
        simpa using hR
      have hlc : R.data.getLast hne ≠ '/' := by
        intro he
        exact hlast (by rw [List.getLast?_eq_getLast_of_ne_nil hne, he])
      rw [if_pos ⟨by simp, List.any_eq_true.mpr
        ⟨R.data.getLast hne, List.mem_append_left _ (List.getLast_mem hne), by simp [hlc]⟩⟩]
      rw [rstripSlash_append_slash R.data hlast]

theorem descend_append (a : List String) :
    ∀ (b : List String) (t : FS),
      descend t (a ++ b) = (descend t a).bind (fun t' => descend t' b) := by
  induction a with
  | nil => intro b t; simp [descend]
  | cons s rest ih =>
    intro b t
    simp only [List.cons_append, descend]
    cases lookupChild t.childrenOf s with
    | none => simp
    | some t' => simp [ih b t']

theorem commonLen_self (l : List String) : commonLen l l = l.length := by
  induction l with
  | nil => simp [commonLen]
  | cons s rest ih => simp [commonLen, ih]

theorem relPath_self (R : String) : relPath R R = "." := by
  simp only [relPath, commonLen_self, Nat.sub_self, List.replicate_zero, List.drop_length,
    List.nil_append]
  simp

theorem validate_eq_isDir (fsys : FS) (R X : String) :
    validate_new_root fsys R X = isDir fsys (osJoin R X) := by
  unfold validate_new_root pathExists
  cases isDir fsys (osJoin R X) <;> simp

theorem isDir_osJoin_child (fsys : FS) (R X : String) (h1 : '/' ∉ X.data) (h2 : X ≠ "")
    (h3 : X ≠ ".") (h4 : X ≠ "..") (h : isDir fsys (osJoin R X) = true) :
    isDir fsys R = true := by
  unfold isDir at h ⊢
  rw [normSegs_osJoin R X h1 h2 h3 h4, descend_append] at h
  cases hd : descend fsys (normSegs R) with
  | none => rw [hd] at h; simp at h
  | some t => simp

theorem isDir_imp_pathExists (fsys : FS) (p : String) (h : isDir fsys p = true) :
    pathExists fsys p = true := by
  unfold pathExists
  rw [h]
  rfl

theorem cdStep_dotdot_ok (fsys : FS) (R : String)
    (h : (pathExists fsys (osDirname R) && isDir fsys (osDirname R)) = true) :
    cdStep fsys R ".." = (.ok, osDirname R) := by
  simp only [cdStep]
  rw [if_pos trivial, if_pos h]

theorem cdStep_dotdot_fail (fsys : FS) (R : String)
    (h : ¬((pathExists fsys (osDirname R) && isDir fsys (osDirname R)) = true)) :
    cdStep fsys R ".." = (.cannotGoAbove, R) := by
  simp only [cdStep]
  rw [if_pos trivial, if_neg h]

theorem cdStep_other_ok (fsys : FS) (R X : String) (hne : X ≠ "..")
    (h : isDir fsys (osJoin R X) = true) :
    cdStep fsys R X = (.ok, osJoin R X) := by
  simp only [cdStep]
  rw [if_neg hne, if_pos (by rw [validate_eq_isDir, h])]

theorem cdStep_other_fail (fsys : FS) (R X : String) (hne : X ≠ "..")
    (h : isDir fsys (osJoin R X) = false) :
    cdStep fsys R X = (.invalidPath, R) := by
  simp only [cdStep]
  rw [if_neg hne, if_neg (by rw [validate_eq_isDir, h]; simp)]

theorem cdStep_root_dotdot (fsys : FS) : cdStep fsys "/" ".." = (.ok, "/") := rfl

theorem take_eq_take_own_length {α : Type} (l l' : List α) (j : Nat) (h : l' = l.take j) :
    l' = l.take l'.length := by
  subst h
  rw [List.length_take]
  rw [List.take_eq_take]
  omega

theorem processLevel_mem (R : String) (info : List (String × LevelEntry))
    (t : String × List String × List String) (k : String) (e : LevelEntry)
    (h : (k, e) ∈ (processLevel R info t).1) :
    (k, e) ∈ info ∨
      (k = relPath t.1 R ∧
        e.dirs = t.2.1.take e.dirs.length ∧ e.dirs.length ≤ MAX_ITEMS / 2 ∧
        e.files = t.2.2.take e.files.length ∧ e.files.length ≤ MAX_ITEMS / 2 ∧
        e.warning = (if t.2.1.length + t.2.2.length > e.dirs.length + e.files.length then
          some (levelWarning e.dirs.length e.files.length t.2.1.length t.2.2.length)
        else none)) := by
  simp only [processLevel] at h
  split at h
  · rcases mem_pyInsert _ _ _ _ h with heq | hin
    · right
      have hk : k = relPath t.1 R := congrArg Prod.fst heq
      have he : e = ⟨(trimLoop info (relPath t.1 R) R (t.2.1.take (MAX_ITEMS / 2))
          (t.2.2.take (MAX_ITEMS / 2))).2.1,
          (trimLoop info (relPath t.1 R) R (t.2.1.take (MAX_ITEMS / 2))
          (t.2.2.take (MAX_ITEMS / 2))).2.2, _⟩ := congrArg Prod.snd heq
      obtain ⟨n, m, hn, hm⟩ := trimLoop_take info (relPath t.1 R) R
        (t.2.1.take (MAX_ITEMS / 2)) (t.2.2.take (MAX_ITEMS / 2))
      have hdirs : e.dirs = t.2.1.take (min n (MAX_ITEMS / 2)) := by
        rw [he]
        show (trimLoop _ _ _ _ _).2.1 = _
        rw [hn, List.take_take]
      have hfiles : e.files = t.2.2.take (min m (MAX_ITEMS / 2)) := by
        rw [he]
        show (trimLoop _ _ _ _ _).2.2 = _
        rw [hm, List.take_take]
      refine ⟨hk, take_eq_take_own_length _ _ _ hdirs, ?_,
        take_eq_take_own_length _ _ _ hfiles, ?_, ?_⟩
      · rw [hdirs, List.length_take]
        omega
      · rw [hfiles, List.length_take]
        omega
      · rw [he]
    · exact Or.inl hin
  · exact Or.inl h

theorem runWalk_mem (R : String) (triples : List (String × List String × List String)) :
    ∀ (info0 : List (String × LevelEntry)) (k : String) (e : LevelEntry),
      (k, e) ∈ (runWalk R info0 triples).1 →
      (k, e) ∈ info0 ∨
        ∃ p ds fls, (p, ds, fls) ∈ triples ∧ k = relPath p R ∧
          e.dirs = ds.take e.dirs.length ∧ e.dirs.length ≤ MAX_ITEMS / 2 ∧
          e.files = fls.take e.files.length ∧ e.files.length ≤ MAX_ITEMS / 2 ∧
          e.warning = (if ds.length + fls.length > e.dirs.length + e.files.length then
            some (levelWarning e.dirs.length e.files.length ds.length fls.length)
          else none) := by
  induction triples with
  | nil => intro info0 k e h; exact Or.inl h
  | cons t ts ih =>
    intro info0 k e h
    simp only [runWalk] at h
    split at h
    · rcases processLevel_mem R info0 t k e h with hin | hprop
      · exact Or.inl hin
      · exact Or.inr ⟨t.1, t.2.1, t.2.2, List.mem_cons_self t ts, hprop⟩
    · rcases ih _ k e h with hin | ⟨p, ds, fls, hmem, hprop⟩
      · rcases processLevel_mem R info0 t k e hin with hin' | hprop
        · exact Or.inl hin'
        · exact Or.inr ⟨t.1, t.2.1, t.2.2, List.mem_cons_self t ts, hprop⟩
      · exact Or.inr ⟨p, ds, fls, List.mem_cons_of_mem t hmem, hprop⟩

theorem get_files_info_mem (fsys : FS) (R path : String) (info : List (String × LevelEntry))
    (tw : Bool) (h : get_files_info fsys R path = .ok info tw) (k : String) (e : LevelEntry)
    (hm : (k, e) ∈ info) :
    ∃ p ds fls, (p, ds, fls) ∈ pyWalk fsys (osJoin R path) ∧ k = relPath p R ∧
      e.dirs = ds.take e.dirs.length ∧ e.dirs.length ≤ MAX_ITEMS / 2 ∧
      e.files = fls.take e.files.length ∧ e.files.length ≤ MAX_ITEMS / 2 ∧
      e.warning = (if ds.length + fls.length > e.dirs.length + e.files.length then
        some (levelWarning e.dirs.length e.files.length ds.length fls.length) else none) := by
  simp only [get_files_info] at h
  split at h
  · simp only [LsResult.ok.injEq] at h
    obtain ⟨h1, h2⟩ := h
    subst h1
    rcases runWalk_mem R (pyWalk fsys (osJoin R path)) [] k e hm with hin | hp
    · simp at hin
    · exact hp
  · simp at h

set_option maxRecDepth 20000 in
/-- C1, counterexample: at a realistic current root 2079 bytes long (nine
nested directories of 230-character names, reachable by cd), ls with no
argument returns a non-error listing whose complete JSON serialization,
current_path included as in the ls response, exceeds the 2048-byte budget:
the trial check fails before any level is admitted, yet the top-level
truncation warning and the current_path field are still emitted, and
together they alone outgrow the budget. -/
theorem c1_counterexample :
    get_files_info c1fs c1root (lsArg "" c1root) = .ok [] true ∧
    MAX_RESPONSE_SIZE < utf8Len (pyDumps (lsResponse c1fs c1root "")) := by decide

/-- C1, amended: a directory level is admitted to the listing only when the
trimming loop has checked that the serialization of the accumulated listing
plus that level's entry (without its warning) plus the current_path field is
at most 2048 bytes; the warning fields attached after this check, and the
current_path of a response whose listing admitted no level, can push the
complete response past the budget, as the counterexample shows. -/
theorem c1_budget_amended (info : List (String × LevelEntry)) (relroot cur : String)
    (ds fs ds' fs' : List String)
    (h : trimLoop info relroot cur ds fs = (true, ds', fs')) :
    utf8Len (pyDumps (testResponse info relroot cur ds' fs')) ≤ MAX_RESPONSE_SIZE :=
  trimLoop_bound info relroot cur ds fs ds' fs' h

/-- Witness for C1 amended at a concrete trimming-loop call that admits its
level. -/
theorem c1_budget_amended_witness :
    utf8Len (pyDumps (testResponse [] "." "/r" ["a"] ["b"])) ≤ MAX_RESPONSE_SIZE :=
  c1_budget_amended [] "." "/r" ["a"] ["b"] ["a"] ["b"] (by decide)

/-- C2, counterexample: at the filesystem root "/", os.path.dirname gives
"/" itself, which exists and is a directory, so cd ".." succeeds with the
OK message and leaves the root unchanged, instead of failing with "Cannot
go above the root directory" as the claim states. -/
theorem c2_counterexample :
    cdStep (FS.node [("a", FS.node [] [])] []) "/" ".." = (CdResult.ok, "/") ∧
    cdMessage CdResult.ok = "ОК" := by decide

/-- C2, amended: cd ".." succeeds with the OK message and moves the root to
os.path.dirname of the current root whenever that parent path exists and is
a directory; at the filesystem root "/" it therefore succeeds idempotently
with the root unchanged (not a failure); the failure message is produced,
with the root unchanged, exactly when the computed parent does not exist or
is not a directory; and for a root with no trailing slash (or "/") and a
single-name target, dirname of the joined path is the original root, so a
successful parent step strictly shortens a normally-formed root by one
segment. -/
theorem c2_amended :
    (∀ (fsys : FS) (R : String),
      (pathExists fsys (osDirname R) && isDir fsys (osDirname R)) = true →
      cdStep fsys R ".." = (.ok, osDirname R)) ∧
    (∀ fsys : FS, cdStep fsys "/" ".." = (.ok, "/")) ∧
    (∀ (fsys : FS) (R : String),
      ¬((pathExists fsys (osDirname R) && isDir fsys (osDirname R)) = true) →
      cdStep fsys R ".." = (.cannotGoAbove, R)) ∧
    (∀ (R X : String), '/' ∉ X.data → (R = "/" ∨ strEndsWith R '/' = false) →
      osDirname (osJoin R X) = R) :=
  ⟨fun fsys R h => cdStep_dotdot_ok fsys R h,
   fun fsys => cdStep_root_dotdot fsys,
   fun fsys R h => cdStep_dotdot_fail fsys R h,
   fun R X h1 hR => osDirname_osJoin R X h1 hR⟩

/-- Witness for C2 amended: going up from "/a" reaches dirname "/a" = "/". -/
theorem c2_amended_witness :
    cdStep (FS.node [("a", FS.node [] [])] []) "/a" ".." = (CdResult.ok, osDirname "/a") :=
  c2_amended.1 (FS.node [("a", FS.node [] [])] []) "/a" (by decide)

/-- C3: for every cd target other than "..", if the join of the current
root and the target is a directory of the filesystem the root becomes that
joined path with the OK response, and otherwise the response is exactly the
invalid-directory-path message (the literal Russian string the
specification glosses as "Invalid directory path") and the root is
unchanged. -/
theorem c3_cd_validation (fsys : FS) (R X : String) (hne : X ≠ "..") :
    (isDir fsys (osJoin R X) = true → cdStep fsys R X = (.ok, osJoin R X)) ∧
    (isDir fsys (osJoin R X) = false → cdStep fsys R X = (.invalidPath, R) ∧
      cdMessage .invalidPath = "Неверный путь к директории") :=
  ⟨fun h => cdStep_other_ok fsys R X hne h,
   fun h => ⟨cdStep_other_fail fsys R X hne h, rfl⟩⟩

/-- Witness for C3 on a one-directory filesystem: an existing target
succeeds, a missing one fails with the root unchanged. -/
theorem c3_witness :
    cdStep (FS.node [("a", FS.node [] [])] []) "/" "a" = (CdResult.ok, osJoin "/" "a") ∧
    cdStep (FS.node [("a", FS.node [] [])] []) "/" "nope" = (CdResult.invalidPath, "/") :=
  ⟨(c3_cd_validation (FS.node [("a", FS.node [] [])] []) "/" "a" (by decide)).1 (by decide),
   ((c3_cd_validation (FS.node [("a", FS.node [] [])] []) "/" "nope" (by decide)).2
     (by decide)).1⟩

/-- C4, counterexample: from the reachable current root "/a/" (trailing
slash, produced by cd "a/"), cd into the existing subdirectory "b" and then
cd ".." lands on "/a", not the original "/a/": the round trip is not the
identity on the ServerRoot string for every current root. -/
theorem c4_counterexample :
    cdStep (FS.node [("a", FS.node [("b", FS.node [] [])] [])] []) "/a/" "b" =
      (CdResult.ok, "/a/b") ∧
    cdStep (FS.node [("a", FS.node [("b", FS.node [] [])] [])] []) "/a/b" ".." =
      (CdResult.ok, "/a") ∧
    ("/a" : String) ≠ "/a/" := by decide

/-- C4, amended: for a current root that is "/" or has no trailing slash,
and a plain single-component target X (no slash, not "", "." or "..") that
names an existing subdirectory, cd X succeeds into the joined path and
cd ".." then restores exactly the original root. -/
theorem c4_roundtrip_amended (fsys : FS) (R X : String)
    (h1 : '/' ∉ X.data) (h2 : X ≠ "") (h3 : X ≠ ".") (h4 : X ≠ "..")
    (hR : R = "/" ∨ strEndsWith R '/' = false)
    (hsub : isDir fsys (osJoin R X) = true) :
    cdStep fsys R X = (.ok, osJoin R X) ∧ cdStep fsys (osJoin R X) ".." = (.ok, R) := by
  refine ⟨cdStep_other_ok fsys R X h4 hsub, ?_⟩
  have hparent : osDirname (osJoin R X) = R := osDirname_osJoin R X h1 hR
  have hRdir : isDir fsys R = true := isDir_osJoin_child fsys R X h1 h2 h3 h4 hsub
  have h := cdStep_dotdot_ok fsys (osJoin R X) (by
    rw [hparent, isDir_imp_pathExists fsys R hRdir, hRdir]
    rfl)
  rw [hparent] at h
  exact h

/-- Witness for C4 amended: the round trip through "/a/b" restores "/a". -/
theorem c4_roundtrip_witness :
    cdStep (FS.node [("a", FS.node [("b", FS.node [] [])] [])] []) "/a" "b" =
      (CdResult.ok, osJoin "/a" "b") ∧
    cdStep (FS.node [("a", FS.node [("b", FS.node [] [])] [])] []) (osJoin "/a" "b") ".." =
      (CdResult.ok, "/a") :=
  c4_roundtrip_amended (FS.node [("a", FS.node [("b", FS.node [] [])] [])] []) "/a" "b"
    (by decide) (by decide) (by decide) (by decide) (by decide) (by decide)

/-- C5: every level entry of a successful listing shows at most 50
subdirectory names and at most 50 file names, each a prefix of the
enumeration of some visited directory, and carries the truncation warning
(the literal Russian string glossed "Shown d directories and f files out of
D directories and F files", with exactly the shown and total counts) when
and only when fewer items are shown than exist at that level. -/
theorem c5_level_truncation (fsys : FS) (R path : String) (info : List (String × LevelEntry))
    (tw : Bool) (k : String) (e : LevelEntry)
    (h : get_files_info fsys R path = .ok info tw) (hm : (k, e) ∈ info) :
    e.dirs.length ≤ 50 ∧ e.files.length ≤ 50 ∧
      ∃ p ds fls, (p, ds, fls) ∈ pyWalk fsys (osJoin R path) ∧
        e.dirs = ds.take e.dirs.length ∧ e.files = fls.take e.files.length ∧
        e.warning = (if ds.length + fls.length > e.dirs.length + e.files.length then
          some (levelWarning e.dirs.length e.files.length ds.length fls.length) else none) := by
  obtain ⟨p, ds, fls, hmem, hk, hd, hdl, hf, hfl, hw⟩ :=
    get_files_info_mem fsys R path info tw h k e hm
  exact ⟨hdl, hfl, p, ds, fls, hmem, hd, hf, hw⟩

/-- Witness for C5 on a directory of two files, shown in full with no
warning. -/
theorem c5_witness :
    (⟨[], ["f1", "f2"], none⟩ : LevelEntry).dirs.length ≤ 50 ∧
    (⟨[], ["f1", "f2"], none⟩ : LevelEntry).files.length ≤ 50 ∧
      ∃ p ds fls,
        (p, ds, fls) ∈ pyWalk (FS.node [("r", FS.node [] ["f1", "f2"])] [])
          (osJoin "/r" "/r") ∧
        (⟨[], ["f1", "f2"], none⟩ : LevelEntry).dirs =
          ds.take (⟨[], ["f1", "f2"], none⟩ : LevelEntry).dirs.length ∧
        (⟨[], ["f1", "f2"], none⟩ : LevelEntry).files =
          fls.take (⟨[], ["f1", "f2"], none⟩ : LevelEntry).files.length ∧
        (⟨[], ["f1", "f2"], none⟩ : LevelEntry).warning =
          (if ds.length + fls.length >
              (⟨[], ["f1", "f2"], none⟩ : LevelEntry).dirs.length +
              (⟨[], ["f1", "f2"], none⟩ : LevelEntry).files.length then
            some (levelWarning (⟨[], ["f1", "f2"], none⟩ : LevelEntry).dirs.length
              (⟨[], ["f1", "f2"], none⟩ : LevelEntry).files.length ds.length fls.length)
          else none) :=
  c5_level_truncation (FS.node [("r", FS.node [] ["f1", "f2"])] []) "/r" "/r"
    [(".", ⟨[], ["f1", "f2"], none⟩)] false "." ⟨[], ["f1", "f2"], none⟩
    (by decide) (by decide)

/-- C6, counterexample: cd with the absolute target "/etc" replaces the
root wholesale because os.path.join discards the first component when the
second is absolute: from root "/r" the new root becomes "/etc", which does
not extend "/r". -/
theorem c6_counterexample :
    cdStep (FS.node [("r", FS.node [] []), ("etc", FS.node [] [])] []) "/r" "/etc" =
      (CdResult.ok, "/etc") ∧
    ("/etc" : String).data.take 2 ≠ ("/r" : String).data := by decide

/-- A non-absolute second component makes os.path.join extend the first
component textually. -/
theorem osJoin_extends (R X : String) (hX : strStartsWith X '/' = false) :
    ∃ t : String, osJoin R X = R ++ t := by
  unfold osJoin
  rw [hX]
  simp only [Bool.false_eq_true, if_false]
  by_cases hR : R = "" ∨ strEndsWith R '/' = true
  · rw [if_pos hR]
    exact ⟨X, by cases R; cases X; rfl⟩
  · rw [if_neg hR]
    exact ⟨"/" ++ X, by cases R; cases X; rfl⟩

/-- C6, amended: only for targets that do not begin with "/" is the target
treated as relative: a successful cd then makes the new root a textual
extension of the old root (the joined path); a target beginning with "/"
replaces the root in one step, as the counterexample shows. -/
theorem c6_relative_amended (fsys : FS) (R X : String) (res : CdResult) (R' : String)
    (hX : strStartsWith X '/' = false) (hne : X ≠ "..")
    (h : cdStep fsys R X = (res, R')) (hok : res = CdResult.ok) :
    ∃ t : String, R' = R ++ t ∧ R' = osJoin R X := by
  subst hok
  simp only [cdStep, if_neg hne] at h
  split at h
  · injection h with ha hb
    subst hb
    obtain ⟨t, ht⟩ := osJoin_extends R X hX
    exact ⟨t, ht, rfl⟩
  · injection h with ha hb
    exact CdResult.noConfusion ha

/-- Witness for C6 amended: cd "sub" from "/r" lands on the extension
"/r/sub". -/
theorem c6_relative_witness :
    ∃ t : String, "/r/sub" = "/r" ++ t ∧ ("/r/sub" : String) = osJoin "/r" "sub" :=
  c6_relative_amended (FS.node [("r", FS.node [("sub", FS.node [] [])] [])] [])
    "/r" "sub" CdResult.ok "/r/sub" (by decide) (by decide) (by decide) rfl

/-- C7, counterexample: listing the subdirectory "sub" of the current root
keys the walk root entry "sub", not ".": no "." key appears at all, so the
walk root is keyed "." only when the target is the current root itself. -/
theorem c7_counterexample :
    get_files_info (FS.node [("r", FS.node [("sub", FS.node [] [])] [])] []) "/r" "sub" =
      .ok [("sub", ⟨[], [], none⟩)] false ∧
    pyLookup [(("sub" : String), (⟨[], [], none⟩ : LevelEntry))] "." = none := by decide

/-- C7, amended: every entry of a successful listing is keyed by the
os.path.relpath of a visited directory relative to the current root, and
relpath yields "." exactly for the current root itself — so the walk root
is keyed "." precisely when the target resolves to the current root (as for
ls with no argument), and by its own relative path otherwise. -/
theorem c7_keys_amended :
    (∀ (fsys : FS) (R path : String) (info : List (String × LevelEntry)) (tw : Bool)
      (k : String) (e : LevelEntry),
      get_files_info fsys R path = .ok info tw → (k, e) ∈ info →
      ∃ p ds fls, (p, ds, fls) ∈ pyWalk fsys (osJoin R path) ∧ k = relPath p R) ∧
    (∀ R : String, relPath R R = ".") := by
  constructor
  · intro fsys R path info tw k e h hm
    obtain ⟨p, ds, fls, hmem, hk, _⟩ := get_files_info_mem fsys R path info tw h k e hm
    exact ⟨p, ds, fls, hmem, hk⟩
  · exact relPath_self

/-- Witness for C7 amended: the key "sub" of the sole entry is the relpath
of a visited directory. -/
theorem c7_keys_witness :
    ∃ p ds fls,
      (p, ds, fls) ∈ pyWalk (FS.node [("r", FS.node [("sub", FS.node [] [])] [])] [])
        (osJoin "/r" "sub") ∧
      ("sub" : String) = relPath p "/r" :=
  c7_keys_amended.1 (FS.node [("r", FS.node [("sub", FS.node [] [])] [])] []) "/r" "sub"
    [("sub", ⟨[], [], none⟩)] false "sub" ⟨[], [], none⟩ (by decide) (by decide)

/-- C8: the response to every ls request — error listings included, since
the quantification is over all filesystems, roots and arguments — contains
a current_path key whose value is the server's current root at the time of
the request, not the requested subpath. -/
theorem c8_current_path (fsys : FS) (R arg : String) :
    pyLookup (lsResponseKVs fsys R arg) "current_path" = some (.str R) := by
  unfold lsResponseKVs
  exact pyLookup_pyInsert _ _ _

/-- C9: a target path whose join with the current root does not exist
yields exactly the error dict with the missing-path message (the literal
Russian string glossed "Path does not exist"), and any exception raised
during the walk (modelled as an abstract raised message, mirroring the
catch-all except clause) is returned as an error value of the same response
type rather than escaping the handler. -/
theorem c9_error_handling :
    (∀ (fsys : FS) (R path : String), pathExists fsys (osJoin R path) = false →
      get_files_info fsys R path = .error errNoPath) ∧
    (∀ (e : String) (fsys : FS) (R path : String),
      get_files_info_exc (some e) fsys R path = .error e) := by
  constructor
  · intro fsys R path h
    simp only [get_files_info]
    rw [if_neg (by rw [h]; simp)]
  · intro e fsys R path
    rfl

/-- Witness for C9 on an empty filesystem and a missing path. -/
theorem c9_error_witness :
    get_files_info (FS.node [] []) "/" "nope" = .error errNoPath :=
  c9_error_handling.1 (FS.node [] []) "/" "nope" (by decide)

/-- C10: the trimming loop terminates for every input within one iteration
more than the combined length of the two name lists — the iteration-counted
loop returns within that budget and agrees with the loop as written (each
iteration either exits or drops the trailing element of every non-empty
list) — so get_files_info is a total function. -/
theorem c10_trim_terminates (info : List (String × LevelEntry)) (relroot cur : String)
    (ds fs : List String) :
    trimLoopF (ds.length + fs.length + 1) info relroot cur ds fs =
      some (trimLoopW info relroot cur ds fs) ∧
    trimLoop info relroot cur ds fs = trimLoopW info relroot cur ds fs :=
  ⟨trimLoopF_some (ds.length + fs.length + 1) ds fs info relroot cur (by omega),
   trimLoop_eq_trimLoopW info relroot cur ds fs⟩
